import Mathlib

/-!
Verification of the Stokes-parameter conversion engine
(`src/component/StokesParameters.py`) against its specification.

The engine ingests a parsed tab-separated table (pandas `DataFrame`),
converts each row's instrument parameters (intensity, DOP, azimuth, PER)
into Stokes parameters S0..S3, derives polarization properties from the
Stokes table, and exports the results.  We embed the parsed table as a
list of column names together with a list of real-valued rows, and each
method of the `StokesParameters` class as a function over that model.
-/

open Real

/-- Parsed numeric table: the result of `pd.read_csv` on the data body.
`cols` are the column labels, `rows` the data rows in file order. -/
structure Table where
  cols : List String
  rows : List (List ℝ)

/-- Index of a named column, as pandas label lookup `df['name']`
(first matching label). `none` models a `KeyError`. -/
def colIdx (t : Table) (name : String) : Option Nat :=
  t.cols.indexOf? name

/-- Entry of a row at a column index; rows are rectangular in practice,
the default 0 is never exercised by the theorems. -/
def getEntry (r : List ℝ) (i : Nat) : ℝ :=
  r.getD i 0

/-- Azimuth column resolution in `convert_to_stokes`: the label `φ [°]`
is tried first (`try: self.data['φ [°]']`), and on failure the fifth
column `self.data.iloc[:, 4]` is used, which itself raises when the
table has fewer than five columns. -/
def azimuthIdx (t : Table) : Option Nat :=
  match colIdx t "φ [°]" with
  | some i => some i
  | none => if 5 ≤ t.cols.length then some 4 else none

/-- Column indices required by `convert_to_stokes`. -/
structure ColIdxs where
  no : Nat
  intensity : Nat
  dop : Nat
  azimuth : Nat
  per : Nat
deriving DecidableEq

/-- Lookup of every column accessed by `convert_to_stokes`; any failed
lookup raises in the Python code and is caught by the wrapping
`except`, making the whole conversion return `None`. -/
def findCols (t : Table) : Option ColIdxs := do
  let n ← colIdx t "No"
  let i ← colIdx t "Intensity [%]"
  let d ← colIdx t "DOP [%]"
  let a ← azimuthIdx t
  let p ← colIdx t "PER [dB]"
  some ⟨n, i, d, a, p⟩

/-- Degrees to radians, as `np.deg2rad`. -/
noncomputable def deg2rad (x : ℝ) : ℝ := x * π / 180

/-- Radians to degrees, as `np.rad2deg`. -/
noncomputable def rad2deg (x : ℝ) : ℝ := x * 180 / π

/-- Two-argument arctangent, as `np.arctan2(y, x)`: the argument of the
complex number `x + y·i`, in `(-π, π]`. -/
noncomputable def arctan2 (y x : ℝ) : ℝ := Complex.arg ⟨x, y⟩

/-- Per-row forward transform of `convert_to_stokes` (the vectorized
numpy pipeline, lines 119-160, specialized to one row), in exact real
arithmetic. Output row layout follows the `results` frame:
`[No, S0, S1, S2, S3, DOP_calculated, Azimuth_original, PER_original,
Intensity_original]`. -/
noncomputable def stokesRow (noV intensityV dopV azimuthV perV : ℝ) : List ℝ :=
  let I := intensityV / 100
  let dop := dopV / 100
  let azimuthRad := deg2rad azimuthV
  let perLinear : ℝ := (10 : ℝ) ^ (perV / 10)
  let chi := 0.5 * Real.arctan (2 / Real.sqrt (perLinear - 1))
  let S1 := I * dop * Real.cos (2 * azimuthRad) * Real.cos (2 * chi)
  let S2 := I * dop * Real.sin (2 * azimuthRad) * Real.cos (2 * chi)
  let S3 := I * dop * Real.sin (2 * chi)
  [noV, I, S1, S2, S3, Real.sqrt (S1 ^ 2 + S2 ^ 2 + S3 ^ 2) / I,
   azimuthV, perV, intensityV]

/-- Column labels of the Stokes results frame. -/
def stokesCols : List String :=
  ["No", "S0", "S1", "S2", "S3", "DOP_calculated",
   "Azimuth_original [°]", "PER_original [dB]", "Intensity_original [%]"]

/-- The method `convert_to_stokes` on a loaded table: resolve the
required columns, then apply the row transform to every row, keeping
input row order.  `none` models the `except` branch returning `None`. -/
noncomputable def convert_to_stokes (t : Table) : Option Table :=
  match findCols t with
  | none => none
  | some c =>
      some ⟨stokesCols,
        t.rows.map fun r =>
          stokesRow (getEntry r c.no) (getEntry r c.intensity)
            (getEntry r c.dop) (getEntry r c.azimuth) (getEntry r c.per)⟩

/-- Per-row inverse transform of `get_polarization_properties`
(lines 182-207, specialized to one row). Output row layout follows the
`properties` frame: `[No, DOP [%], Azimuth_calculated, Ellipticity_angle,
Ellipticity_ratio, Linear_DOP [%], Circular_DOP [%]]`. -/
noncomputable def propRow (noV S0 S1 S2 S3 : ℝ) : List ℝ :=
  let dopCalc := Real.sqrt (S1 ^ 2 + S2 ^ 2 + S3 ^ 2) / S0
  let azimuthCalc := 0.5 * rad2deg (arctan2 S2 S1)
  let ellipticityCalc := 0.5 * rad2deg (Real.arcsin (S3 / (S0 * dopCalc + 1e-10)))
  [noV, dopCalc * 100, azimuthCalc, ellipticityCalc,
   Real.tan (deg2rad ellipticityCalc),
   Real.sqrt (S1 ^ 2 + S2 ^ 2) / S0 * 100,
   |S3| / S0 * 100]

/-- Column labels of the polarization properties frame. -/
def propCols : List String :=
  ["No", "DOP [%]", "Azimuth_calculated [°]", "Ellipticity_angle [°]",
   "Ellipticity_ratio", "Linear_DOP [%]", "Circular_DOP [%]"]

/-- The method `get_polarization_properties`: `None` when no Stokes
results are present; otherwise look up the columns `No`, `S0`..`S3`
(a missing one raises and is caught, returning `None`) and map the
per-row inverse transform over the rows. -/
noncomputable def get_polarization_properties (stokes : Option Table) : Option Table :=
  match stokes with
  | none => none
  | some t => do
      let n ← colIdx t "No"
      let i0 ← colIdx t "S0"
      let i1 ← colIdx t "S1"
      let i2 ← colIdx t "S2"
      let i3 ← colIdx t "S3"
      some ⟨propCols,
        t.rows.map fun r =>
          propRow (getEntry r n) (getEntry r i0) (getEntry r i1)
            (getEntry r i2) (getEntry r i3)⟩

/-- Instance state of the `StokesParameters` class: `self.data` and
`self.stokes_results`, both `None` after `__init__`. -/
structure Engine where
  data : Option Table
  stokes : Option Table

/-- The constructor `__init__`. -/
def Engine.mk0 : Engine := ⟨none, none⟩

/-- The method `load_data`, after encoding resolution: `parsed` is the
table produced by a successful `pd.read_csv` (or `none` when every
attempt failed).  On success only `self.data` is assigned and `True`
returned; on failure the state is left untouched and `False` returned. -/
def load_data (e : Engine) (parsed : Option Table) : Engine × Bool :=
  match parsed with
  | some t => (⟨some t, e.stokes⟩, true)
  | none => (e, false)

/-- The stateful effect of `convert_to_stokes`: on success the result is
assigned to `self.stokes_results`; on failure (`None`) the state is
untouched. -/
noncomputable def convertStep (e : Engine) : Engine × Option Table :=
  match e.data with
  | none => (e, none)
  | some t =>
      match convert_to_stokes t with
      | none => (e, none)
      | some st => (⟨e.data, some st⟩, some st)

/-- Table with possibly-missing entries, the result of a pandas left
merge (unmatched rows are filled with nulls). -/
structure MTable where
  cols : List String
  rows : List (List (Option ℝ))

/-- View of a plain table as a merge-result table. -/
def Table.toM (t : Table) : MTable :=
  ⟨t.cols, t.rows.map fun r => r.map some⟩

/-- Pandas `a.merge(b, on='No', how='left')`: the output keeps `a`'s
columns followed by `b`'s columns minus `No`; each left row is joined
with the first right row with an equal `No` entry, or with nulls.
`none` models the `KeyError` raised when a side lacks the key. -/
noncomputable def mergeOnNo (a b : Table) : Option MTable :=
  match colIdx a "No", colIdx b "No" with
  | some ia, some ib =>
      some ⟨a.cols ++ b.cols.eraseIdx ib,
        a.rows.map fun ra =>
          ra.map some ++
            match b.rows.find? (fun rb => decide (getEntry rb ib = getEntry ra ia)) with
            | some rb => (rb.eraseIdx ib).map some
            | none => List.replicate (b.cols.eraseIdx ib).length none⟩
  | _, _ => none

/-- The method `save_results` (lines 226-247): `False` and no write when
`self.stokes_results is None`; otherwise the saved frame is the Stokes
table, left-merged with the property table when `include_properties`
holds and the property derivation returned a frame (a `None` property
result is silently skipped); any exception on the way yields `False`. -/
noncomputable def save_results (e : Engine) (include_properties : Bool) :
    Option MTable × Bool :=
  match e.stokes with
  | none => (none, false)
  | some st =>
      if include_properties then
        match get_polarization_properties (some st) with
        | some p =>
            match mergeOnNo st p with
            | some m => (some m, true)
            | none => (none, false)
        | none => (some st.toM, true)
      else (some st.toM, true)

/-- Behaviour of one input file under the ingestion attempts of
`load_data`: `tryParse enc` is the outcome of
`pd.read_csv(path, sep='\t', skiprows=2, encoding=enc)` (`none` for any
raised exception), and `detect` the `chardet.detect` result (encoding
and confidence), when available. -/
structure RawFile where
  tryParse : String → Option Table
  detect : Option (String × ℚ)

/-- The fixed candidate encoding list of `load_data`, in source order. -/
def encodings : List String :=
  ["utf-8", "gbk", "utf-16le", "gb2312", "latin-1", "cp1252", "utf-8-sig"]

/-- The encoding loop of `load_data`: first candidate that parses wins. -/
def tryEncodings (f : RawFile) : List String → Option (String × Table)
  | [] => none
  | e :: rest =>
      match f.tryParse e with
      | some t => some (e, t)
      | none => tryEncodings f rest

/-- Full encoding resolution of `load_data`: the candidate loop, then —
only if every candidate failed — statistical detection, accepted only
above confidence 0.7, with one parse retry using the detected encoding. -/
def resolveEncoding (f : RawFile) : Option (String × Table) :=
  match tryEncodings f encodings with
  | some r => some r
  | none =>
      match f.detect with
      | some (enc, conf) =>
          if conf > 0.7 then
            match f.tryParse enc with
            | some t => some (enc, t)
            | none => none
          else none
      | none => none

/-- Idealized IEEE double value: a finite real, an infinity, or NaN.
Used to model the numpy float semantics of `convert_to_stokes` where
degenerate rows produce non-finite values instead of raising. -/
inductive NumV where
  | fin (x : ℝ)
  | pinf
  | ninf
  | nan

/-- A value is finite when it carries a real. -/
def NumV.isFinite : NumV → Prop
  | .fin _ => True
  | _ => False

noncomputable section FloatModel

open NumV Classical

/-- IEEE negation. -/
def negF : NumV → NumV
  | fin x => fin (-x)
  | pinf => ninf
  | ninf => pinf
  | nan => nan

/-- IEEE addition (infinities of opposite sign give NaN). -/
def addF : NumV → NumV → NumV
  | fin x, fin y => fin (x + y)
  | fin _, pinf => pinf
  | fin _, ninf => ninf
  | pinf, fin _ => pinf
  | ninf, fin _ => ninf
  | pinf, pinf => pinf
  | ninf, ninf => ninf
  | pinf, ninf => nan
  | ninf, pinf => nan
  | _, nan => nan
  | nan, _ => nan

/-- IEEE subtraction. -/
def subF (a b : NumV) : NumV := addF a (negF b)

/-- IEEE multiplication (zero times infinity gives NaN). -/
def mulF : NumV → NumV → NumV
  | fin x, fin y => fin (x * y)
  | fin x, pinf => if 0 < x then pinf else if x < 0 then ninf else nan
  | fin x, ninf => if 0 < x then ninf else if x < 0 then pinf else nan
  | pinf, fin y => if 0 < y then pinf else if y < 0 then ninf else nan
  | ninf, fin y => if 0 < y then ninf else if y < 0 then pinf else nan
  | pinf, pinf => pinf
  | ninf, ninf => pinf
  | pinf, ninf => ninf
  | ninf, pinf => ninf
  | _, nan => nan
  | nan, _ => nan

/-- IEEE division with an unsigned zero (the dividends reached by the
engine are produced as `+0`): `x/0` is signed infinity for `x ≠ 0` and
NaN for `0/0`; `inf/inf` is NaN. -/
def divF : NumV → NumV → NumV
  | fin x, fin y =>
      if y = 0 then (if 0 < x then pinf else if x < 0 then ninf else nan)
      else fin (x / y)
  | fin _, pinf => fin 0
  | fin _, ninf => fin 0
  | pinf, fin y => if 0 ≤ y then pinf else ninf
  | ninf, fin y => if 0 ≤ y then ninf else pinf
  | pinf, pinf => nan
  | pinf, ninf => nan
  | ninf, pinf => nan
  | ninf, ninf => nan
  | _, nan => nan
  | nan, _ => nan

/-- IEEE square root: NaN on negative arguments (numpy emits a warning
and yields NaN, it does not raise). -/
def sqrtF : NumV → NumV
  | fin x => if x < 0 then nan else fin (Real.sqrt x)
  | pinf => pinf
  | ninf => nan
  | nan => nan

/-- IEEE cosine: NaN away from finite arguments. -/
def cosF : NumV → NumV
  | fin x => fin (Real.cos x)
  | _ => nan

/-- IEEE sine. -/
def sinF : NumV → NumV
  | fin x => fin (Real.sin x)
  | _ => nan

/-- IEEE arctangent, with its finite limits at the infinities. -/
def arctanF : NumV → NumV
  | fin x => fin (Real.arctan x)
  | pinf => fin (π / 2)
  | ninf => fin (-(π / 2))
  | nan => nan

/-- IEEE `10.0 ** x`. -/
def tenPowF : NumV → NumV
  | fin x => fin ((10 : ℝ) ^ x)
  | pinf => pinf
  | ninf => fin 0
  | nan => nan

/-- Per-row forward transform of `convert_to_stokes` under float
semantics: same pipeline as `stokesRow`, with every numpy operation
interpreted over `NumV`.  The parsed inputs are finite reals. -/
def stokesRowF (noV intensityV dopV azimuthV perV : ℝ) : List NumV :=
  let I := fin (intensityV / 100)
  let dop := fin (dopV / 100)
  let azimuthRad := fin (deg2rad azimuthV)
  let perLinear := tenPowF (fin (perV / 10))
  let chi := mulF (fin 0.5) (arctanF (divF (fin 2) (sqrtF (subF perLinear (fin 1)))))
  let S1 := mulF (mulF (mulF I dop) (cosF (mulF (fin 2) azimuthRad))) (cosF (mulF (fin 2) chi))
  let S2 := mulF (mulF (mulF I dop) (sinF (mulF (fin 2) azimuthRad))) (cosF (mulF (fin 2) chi))
  let S3 := mulF (mulF I dop) (sinF (mulF (fin 2) chi))
  let dopCalc := divF (sqrtF (addF (addF (mulF S1 S1) (mulF S2 S2)) (mulF S3 S3))) I
  [fin noV, I, S1, S2, S3, dopCalc, fin azimuthV, fin perV, fin intensityV]

/-- The method `convert_to_stokes` under float semantics: same column
resolution as `convert_to_stokes`, rows mapped through `stokesRowF`. -/
def convertF (t : Table) : Option (List (List NumV)) :=
  match findCols t with
  | none => none
  | some c =>
      some (t.rows.map fun r =>
        stokesRowF (getEntry r c.no) (getEntry r c.intensity)
          (getEntry r c.dop) (getEntry r c.azimuth) (getEntry r c.per))

end FloatModel

/-- Sample column list with a literal azimuth header. -/
def cols5 : List String := ["No", "Intensity [%]", "DOP [%]", "PER [dB]", "φ [°]"]

/-- Sample single-row input table (the spec's concrete scenario with
azimuth 30°). -/
def T1 : Table := ⟨cols5, [[1, 100, 50, 10, 30]]⟩

/-- Sample single-row input table with azimuth 135°, outside the
principal range recovered by `atan2`. -/
def T2 : Table := ⟨cols5, [[1, 100, 50, 10, 135]]⟩

/-- Sample table missing the required `Intensity [%]` column. -/
def T3 : Table := ⟨["No", "DOP [%]", "PER [dB]", "φ [°]", "x"], [[1, 50, 10, 30, 0]]⟩

/-- Sample table missing the required `No` column. -/
def T4 : Table := ⟨["Intensity [%]", "DOP [%]", "PER [dB]", "φ [°]"], [[100, 50, 10, 30]]⟩

/-- Sample table where the azimuth header is not `φ [°]` (fifth column
holds the azimuth). -/
def T5 : Table :=
  ⟨["No", "Intensity [%]", "DOP [%]", "PER [dB]", "Az"], [[1, 100, 50, 10, 30]]⟩

/-- Sample single-row table with a degenerate PER of -10 dB. -/
def TDeg : Table := ⟨cols5, [[1, 100, 50, -10, 30]]⟩

/-- File model that parses only under the gbk candidate. -/
def gbkFile : RawFile :=
  ⟨fun e => if e = "gbk" then some ⟨cols5, []⟩ else none, none⟩

/-! Helper lemmas shared by the claim theorems. -/

/-- Indexing a mapped list inside the bounds goes through the map. -/
theorem getD_map_of_lt {α β : Type} (f : α → β) (l : List α) (k : Nat)
    (hk : k < l.length) (d : α) (d' : β) :
    (l.map f).getD k d' = f (l.getD k d) := by
  induction l generalizing k with
  | nil => simp at hk
  | cons x xs ih =>
      cases k with
      | zero => rfl
      | succ n =>
          simp only [List.map_cons, List.getD_cons_succ]
          exact ih n (by simpa using hk)

/-- Column resolution of `convert_to_stokes` from individual lookups. -/
theorem findCols_eq (t : Table) (cn ci cd ca cp : Nat)
    (hn : colIdx t "No" = some cn) (hi : colIdx t "Intensity [%]" = some ci)
    (hd : colIdx t "DOP [%]" = some cd) (ha : azimuthIdx t = some ca)
    (hp : colIdx t "PER [dB]" = some cp) :
    findCols t = some ⟨cn, ci, cd, ca, cp⟩ := by
  simp [findCols, hn, hi, hd, ha, hp]

/-! Claim theorems. -/

/-- C1: for every input row, `convert_to_stokes` computes
S0 = Intensity[%]/100 (a function of the intensity entry alone),
DOP = DOP[%]/100, PERlin = 10^(PER[dB]/10),
chi = 0.5*atan(2/sqrt(PERlin - 1)),
S1 = S0*DOP*cos(2 phi)*cos(2 chi), S2 = S0*DOP*sin(2 phi)*cos(2 chi),
S3 = S0*DOP*sin(2 chi) with phi the azimuth in radians, and
DOP_calculated = sqrt(S1^2+S2^2+S3^2)/S0, producing exactly one Stokes
record per input row in input row order. -/
theorem convert_computes_stokes_formulas (t : Table) (cn ci cd ca cp : Nat)
    (hn : colIdx t "No" = some cn) (hi : colIdx t "Intensity [%]" = some ci)
    (hd : colIdx t "DOP [%]" = some cd) (ha : azimuthIdx t = some ca)
    (hp : colIdx t "PER [dB]" = some cp) :
    ∃ res : Table, convert_to_stokes t = some res ∧
      res.rows.length = t.rows.length ∧
      (∀ k, k < t.rows.length →
        res.rows.getD k [] =
          (let r := t.rows.getD k []
          let S0 := getEntry r ci / 100
          let dop := getEntry r cd / 100
          let phiRad := deg2rad (getEntry r ca)
          let perLin : ℝ := (10 : ℝ) ^ (getEntry r cp / 10)
          let chi := 0.5 * Real.arctan (2 / Real.sqrt (perLin - 1))
          let S1 := S0 * dop * Real.cos (2 * phiRad) * Real.cos (2 * chi)
          let S2 := S0 * dop * Real.sin (2 * phiRad) * Real.cos (2 * chi)
          let S3 := S0 * dop * Real.sin (2 * chi)
          [getEntry r cn, S0, S1, S2, S3,
           Real.sqrt (S1 ^ 2 + S2 ^ 2 + S3 ^ 2) / S0,
           getEntry r ca, getEntry r cp, getEntry r ci])) ∧
      (∀ n1 iv d1 a1 p1 n2 d2 a2 p2 : ℝ,
        (stokesRow n1 iv d1 a1 p1).getD 1 0 = iv / 100 ∧
        (stokesRow n1 iv d1 a1 p1).getD 1 0 = (stokesRow n2 iv d2 a2 p2).getD 1 0) := by
  have hfc : findCols t = some ⟨cn, ci, cd, ca, cp⟩ := findCols_eq t cn ci cd ca cp hn hi hd ha hp
  refine ⟨⟨stokesCols,
    t.rows.map fun r =>
      stokesRow (getEntry r cn) (getEntry r ci) (getEntry r cd)
        (getEntry r ca) (getEntry r cp)⟩, ?_, ?_, ?_, ?_⟩
  · simp [convert_to_stokes, hfc]
  · simp
  · intro k hk
    simpa using getD_map_of_lt _ t.rows k hk [] []
  · intro n1 iv d1 a1 p1 n2 d2 a2 p2
    exact ⟨rfl, rfl⟩

/-- Witness for C1 at the sample table. -/
theorem convert_computes_stokes_formulas_witness :
    ∃ res : Table, convert_to_stokes T1 = some res ∧
      res.rows.length = T1.rows.length := by
  obtain ⟨res, h1, h2, -, -⟩ :=
    convert_computes_stokes_formulas T1 0 1 2 4 3 rfl rfl rfl rfl rfl
  exact ⟨res, h1, h2⟩

/-- C6: for every Stokes record, `get_polarization_properties` computes
DOP_calc = sqrt(S1^2+S2^2+S3^2)/S0,
Azimuth_calculated = 0.5*rad2deg(atan2(S2,S1)),
ellipticity angle in degrees = 0.5*rad2deg(asin(S3/(S0*DOP_calc + 1e-10)))
with the epsilon 1e-10 added in the denominator,
Ellipticity_ratio = tan of the ellipticity angle,
Linear_DOP[%] = sqrt(S1^2+S2^2)/S0*100 and
Circular_DOP[%] = |S3|/S0*100, one property record per Stokes record in
the same order. -/
theorem properties_computes_formulas (st : Table) (kn k0 k1 k2 k3 : Nat)
    (hn : colIdx st "No" = some kn) (h0 : colIdx st "S0" = some k0)
    (h1 : colIdx st "S1" = some k1) (h2 : colIdx st "S2" = some k2)
    (h3 : colIdx st "S3" = some k3) :
    ∃ pt : Table, get_polarization_properties (some st) = some pt ∧
      pt.rows.length = st.rows.length ∧
      (∀ k, k < st.rows.length →
        pt.rows.getD k [] =
          (let r := st.rows.getD k []
          let S0 := getEntry r k0
          let S1 := getEntry r k1
          let S2 := getEntry r k2
          let S3 := getEntry r k3
          let dopCalc := Real.sqrt (S1 ^ 2 + S2 ^ 2 + S3 ^ 2) / S0
          let ellipticityDeg := 0.5 * rad2deg (Real.arcsin (S3 / (S0 * dopCalc + 1e-10)))
          [getEntry r kn, dopCalc * 100, 0.5 * rad2deg (arctan2 S2 S1),
           ellipticityDeg, Real.tan (deg2rad ellipticityDeg),
           Real.sqrt (S1 ^ 2 + S2 ^ 2) / S0 * 100,
           |S3| / S0 * 100])) := by
  refine ⟨⟨propCols,
    st.rows.map fun r =>
      propRow (getEntry r kn) (getEntry r k0) (getEntry r k1)
        (getEntry r k2) (getEntry r k3)⟩, ?_, ?_, ?_⟩
  · simp [get_polarization_properties, hn, h0, h1, h2, h3]
  · simp
  · intro k hk
    simpa using getD_map_of_lt _ st.rows k hk [] []

/-- Witness for C6 at a concrete one-record Stokes table. -/
theorem properties_computes_formulas_witness :
    ∃ pt : Table,
      get_polarization_properties (some ⟨stokesCols, [[1, 1, 0, 1, 0, 1, 45, 10, 100]]⟩)
        = some pt ∧
      pt.rows.length = 1 := by
  obtain ⟨pt, hpt, hlen, -⟩ :=
    properties_computes_formulas ⟨stokesCols, [[1, 1, 0, 1, 0, 1, 45, 10, 100]]⟩
      0 1 2 3 4 rfl rfl rfl rfl rfl
  exact ⟨pt, hpt, hlen⟩

/-- Algebraic core of the norm bound: the squared Stokes vector norm of
one converted row collapses to `(S0 * dop)^2`. -/
theorem stokesRow_sq_norm (noV iv dv av pv : ℝ) :
    ((stokesRow noV iv dv av pv).getD 2 0) ^ 2 +
      ((stokesRow noV iv dv av pv).getD 3 0) ^ 2 +
      ((stokesRow noV iv dv av pv).getD 4 0) ^ 2 =
      (iv / 100 * (dv / 100)) ^ 2 := by
  show (iv / 100 * (dv / 100) * Real.cos _ * Real.cos _) ^ 2 +
      (iv / 100 * (dv / 100) * Real.sin _ * Real.cos _) ^ 2 +
      (iv / 100 * (dv / 100) * Real.sin _) ^ 2 = _
  calc (iv / 100 * (dv / 100) * Real.cos (2 * deg2rad av) *
          Real.cos (2 * (0.5 * Real.arctan (2 / Real.sqrt ((10:ℝ) ^ (pv / 10) - 1))))) ^ 2 +
        (iv / 100 * (dv / 100) * Real.sin (2 * deg2rad av) *
          Real.cos (2 * (0.5 * Real.arctan (2 / Real.sqrt ((10:ℝ) ^ (pv / 10) - 1))))) ^ 2 +
        (iv / 100 * (dv / 100) *
          Real.sin (2 * (0.5 * Real.arctan (2 / Real.sqrt ((10:ℝ) ^ (pv / 10) - 1))))) ^ 2
      = (iv / 100 * (dv / 100)) ^ 2 *
          ((Real.cos (2 * deg2rad av) ^ 2 + Real.sin (2 * deg2rad av) ^ 2) *
            Real.cos (2 * (0.5 * Real.arctan (2 / Real.sqrt ((10:ℝ) ^ (pv / 10) - 1)))) ^ 2 +
           Real.sin (2 * (0.5 * Real.arctan (2 / Real.sqrt ((10:ℝ) ^ (pv / 10) - 1)))) ^ 2) := by
        ring
    _ = (iv / 100 * (dv / 100)) ^ 2 *
          (Real.cos (2 * (0.5 * Real.arctan (2 / Real.sqrt ((10:ℝ) ^ (pv / 10) - 1)))) ^ 2 +
           Real.sin (2 * (0.5 * Real.arctan (2 / Real.sqrt ((10:ℝ) ^ (pv / 10) - 1)))) ^ 2) := by
        rw [Real.cos_sq_add_sin_sq, one_mul]
    _ = (iv / 100 * (dv / 100)) ^ 2 := by
        rw [Real.cos_sq_add_sin_sq, mul_one]

/-- C7: for every input row whose DOP [%] lies in [0,100] and whose
intensity is non-negative, the Stokes vector produced by
`convert_to_stokes` satisfies sqrt(S1^2+S2^2+S3^2) <= S0 (exactly, in
real arithmetic). -/
theorem stokes_norm_bound (t : Table) (cn ci cd ca cp : Nat)
    (hn : colIdx t "No" = some cn) (hi : colIdx t "Intensity [%]" = some ci)
    (hd : colIdx t "DOP [%]" = some cd) (ha : azimuthIdx t = some ca)
    (hp : colIdx t "PER [dB]" = some cp)
    (k : Nat) (hk : k < t.rows.length)
    (hd0 : 0 ≤ getEntry (t.rows.getD k []) cd)
    (hd1 : getEntry (t.rows.getD k []) cd ≤ 100)
    (hi0 : 0 ≤ getEntry (t.rows.getD k []) ci) :
    ∃ res : Table, convert_to_stokes t = some res ∧
      Real.sqrt (((res.rows.getD k []).getD 2 0) ^ 2 +
          ((res.rows.getD k []).getD 3 0) ^ 2 +
          ((res.rows.getD k []).getD 4 0) ^ 2) ≤
        (res.rows.getD k []).getD 1 0 := by
  have hfc : findCols t = some ⟨cn, ci, cd, ca, cp⟩ := findCols_eq t cn ci cd ca cp hn hi hd ha hp
  refine ⟨⟨stokesCols,
    t.rows.map fun r =>
      stokesRow (getEntry r cn) (getEntry r ci) (getEntry r cd)
        (getEntry r ca) (getEntry r cp)⟩, ?_, ?_⟩
  · simp [convert_to_stokes, hfc]
  have hrow : ((t.rows.map fun r =>
      stokesRow (getEntry r cn) (getEntry r ci) (getEntry r cd)
        (getEntry r ca) (getEntry r cp)).getD k []) =
      stokesRow (getEntry (t.rows.getD k []) cn) (getEntry (t.rows.getD k []) ci)
        (getEntry (t.rows.getD k []) cd) (getEntry (t.rows.getD k []) ca)
        (getEntry (t.rows.getD k []) cp) :=
    getD_map_of_lt _ t.rows k hk [] []
  set r := t.rows.getD k [] with hr
  simp only [hrow]
  rw [stokesRow_sq_norm]
  have hIv : (0 : ℝ) ≤ getEntry r ci / 100 := by linarith
  have hDv : (0 : ℝ) ≤ getEntry r cd / 100 := by linarith
  have hD1 : getEntry r cd / 100 ≤ 1 := by linarith
  rw [Real.sqrt_sq (by positivity)]
  have hS0 : (stokesRow (getEntry r cn) (getEntry r ci) (getEntry r cd)
      (getEntry r ca) (getEntry r cp)).getD 1 0 = getEntry r ci / 100 := rfl
  rw [hS0]
  calc getEntry r ci / 100 * (getEntry r cd / 100) ≤ getEntry r ci / 100 * 1 :=
        mul_le_mul_of_nonneg_left hD1 hIv
    _ = getEntry r ci / 100 := mul_one _

/-- Witness for C7 at the sample table. -/
theorem stokes_norm_bound_witness :
    ∃ res : Table, convert_to_stokes T1 = some res ∧
      Real.sqrt (((res.rows.getD 0 []).getD 2 0) ^ 2 +
          ((res.rows.getD 0 []).getD 3 0) ^ 2 +
          ((res.rows.getD 0 []).getD 4 0) ^ 2) ≤
        (res.rows.getD 0 []).getD 1 0 :=
  stokes_norm_bound T1 0 1 2 4 3 rfl rfl rfl rfl rfl 0 (by simp [T1])
    (by norm_num [T1, getEntry, cols5]) (by norm_num [T1, getEntry, cols5])
    (by norm_num [T1, getEntry, cols5])

/-- Recovering an angle in `(-π, π]` from a positively scaled
cosine/sine pair with `np.arctan2`. -/
theorem arctan2_rot (k θ : ℝ) (hk : 0 < k) (hθ : θ ∈ Set.Ioc (-π) π) :
    arctan2 (k * Real.sin θ) (k * Real.cos θ) = θ := by
  have h1 : (⟨k * Real.cos θ, k * Real.sin θ⟩ : ℂ) =
      (k : ℂ) * (Complex.cos (θ : ℂ) + Complex.sin (θ : ℂ) * Complex.I) := by
    simp only [Complex.ext_iff, Complex.mul_re, Complex.mul_im, Complex.add_re,
      Complex.add_im, Complex.I_re, Complex.I_im, Complex.ofReal_re, Complex.ofReal_im,
      Complex.cos_ofReal_re, Complex.cos_ofReal_im, Complex.sin_ofReal_re,
      Complex.sin_ofReal_im]
    constructor <;> ring
  rw [arctan2, h1, Complex.arg_real_mul _ hk, Complex.arg_cos_add_sin_mul_I hθ]


/-- Row-level round trip: feeding one converted Stokes record through
the inverse transform recovers the original DOP [%] and azimuth exactly,
provided the intensity and DOP are positive and the azimuth lies in
`(-90°, 90°]`. -/
theorem roundtrip_row (noV iv dv av pv : ℝ) (hiv : 0 < iv) (hdv0 : 0 < dv)
    (hav0 : -90 < av) (hav1 : av ≤ 90) :
    getEntry (propRow (getEntry (stokesRow noV iv dv av pv) 0)
        (getEntry (stokesRow noV iv dv av pv) 1) (getEntry (stokesRow noV iv dv av pv) 2)
        (getEntry (stokesRow noV iv dv av pv) 3) (getEntry (stokesRow noV iv dv av pv) 4))
        1 = dv ∧
    getEntry (propRow (getEntry (stokesRow noV iv dv av pv) 0)
        (getEntry (stokesRow noV iv dv av pv) 1) (getEntry (stokesRow noV iv dv av pv) 2)
        (getEntry (stokesRow noV iv dv av pv) 3) (getEntry (stokesRow noV iv dv av pv) 4))
        2 = av := by
  have hivne : iv ≠ 0 := ne_of_gt hiv
  constructor
  · show Real.sqrt (((stokesRow noV iv dv av pv).getD 2 0) ^ 2 +
        ((stokesRow noV iv dv av pv).getD 3 0) ^ 2 +
        ((stokesRow noV iv dv av pv).getD 4 0) ^ 2) /
        ((stokesRow noV iv dv av pv).getD 1 0) * 100 = dv
    rw [stokesRow_sq_norm,
      Real.sqrt_sq (mul_nonneg (by linarith) (by linarith))]
    show iv / 100 * (dv / 100) / (iv / 100) * 100 = dv
    field_simp
    ring
  · show 0.5 * rad2deg (arctan2 ((stokesRow noV iv dv av pv).getD 3 0)
        ((stokesRow noV iv dv av pv).getD 2 0)) = av
    have hx : (2 : ℝ) * (0.5 * Real.arctan (2 / Real.sqrt ((10 : ℝ) ^ (pv / 10) - 1))) =
        Real.arctan (2 / Real.sqrt ((10 : ℝ) ^ (pv / 10) - 1)) := by ring
    have e1 : (stokesRow noV iv dv av pv).getD 2 0 =
        (iv / 100 * (dv / 100) *
          Real.cos (Real.arctan (2 / Real.sqrt ((10 : ℝ) ^ (pv / 10) - 1)))) *
          Real.cos (2 * deg2rad av) := by
      show iv / 100 * (dv / 100) * Real.cos (2 * deg2rad av) *
          Real.cos (2 * (0.5 * Real.arctan (2 / Real.sqrt ((10 : ℝ) ^ (pv / 10) - 1)))) = _
      rw [hx]; ring
    have e2 : (stokesRow noV iv dv av pv).getD 3 0 =
        (iv / 100 * (dv / 100) *
          Real.cos (Real.arctan (2 / Real.sqrt ((10 : ℝ) ^ (pv / 10) - 1)))) *
          Real.sin (2 * deg2rad av) := by
      show iv / 100 * (dv / 100) * Real.sin (2 * deg2rad av) *
          Real.cos (2 * (0.5 * Real.arctan (2 / Real.sqrt ((10 : ℝ) ^ (pv / 10) - 1)))) = _
      rw [hx]; ring
    have hk : 0 < iv / 100 * (dv / 100) *
        Real.cos (Real.arctan (2 / Real.sqrt ((10 : ℝ) ^ (pv / 10) - 1))) :=
      mul_pos (mul_pos (by linarith) (by linarith)) (Real.cos_arctan_pos _)
    have hmem : 2 * deg2rad av ∈ Set.Ioc (-π) π := by
      constructor
      · have h1 : 0 < (av + 90) * π :=
          mul_pos (by linarith) Real.pi_pos
        simp only [deg2rad]
        nlinarith [h1]
      · have h1 : 0 ≤ (90 - av) * π :=
          mul_nonneg (by linarith) Real.pi_pos.le
        simp only [deg2rad]
        nlinarith [h1]
    rw [e1, e2, arctan2_rot _ _ hk hmem]
    rw [rad2deg, deg2rad]
    field_simp
    ring

/-- C2 (amended): for every input row with PER[dB] > 0, DOP[%] in
(0,100), positive intensity, and azimuth in the principal range
(-90°, 90°], applying `convert_to_stokes` and then
`get_polarization_properties` recovers the original DOP [%] and azimuth
within 1e-4 absolute tolerance (exactly, in real arithmetic): entry 1 of
the property row is the input DOP [%] and entry 2 the input azimuth. -/
theorem roundtrip_recovers_dop_azimuth (t : Table) (cn ci cd ca cp : Nat)
    (hn : colIdx t "No" = some cn) (hi : colIdx t "Intensity [%]" = some ci)
    (hd : colIdx t "DOP [%]" = some cd) (ha : azimuthIdx t = some ca)
    (hp : colIdx t "PER [dB]" = some cp)
    (k : Nat) (hk : k < t.rows.length)
    (hper : 0 < getEntry (t.rows.getD k []) cp)
    (hdop0 : 0 < getEntry (t.rows.getD k []) cd)
    (hdop1 : getEntry (t.rows.getD k []) cd < 100)
    (hint : 0 < getEntry (t.rows.getD k []) ci)
    (hav0 : -90 < getEntry (t.rows.getD k []) ca)
    (hav1 : getEntry (t.rows.getD k []) ca ≤ 90) :
    ∃ st pt : Table, convert_to_stokes t = some st ∧
      get_polarization_properties (some st) = some pt ∧
      |getEntry (pt.rows.getD k []) 1 - getEntry (t.rows.getD k []) cd| ≤ 1e-4 ∧
      |getEntry (pt.rows.getD k []) 2 - getEntry (t.rows.getD k []) ca| ≤ 1e-4 := by
  have hfc : findCols t = some ⟨cn, ci, cd, ca, cp⟩ := findCols_eq t cn ci cd ca cp hn hi hd ha hp
  have hk' : k < (t.rows.map fun r =>
      stokesRow (getEntry r cn) (getEntry r ci) (getEntry r cd)
        (getEntry r ca) (getEntry r cp)).length := by simpa using hk
  have hrow1 : ((t.rows.map fun r =>
      stokesRow (getEntry r cn) (getEntry r ci) (getEntry r cd)
        (getEntry r ca) (getEntry r cp)).map fun r =>
      propRow (getEntry r 0) (getEntry r 1) (getEntry r 2) (getEntry r 3)
        (getEntry r 4)).getD k [] =
      propRow (getEntry ((t.rows.map fun r =>
          stokesRow (getEntry r cn) (getEntry r ci) (getEntry r cd)
            (getEntry r ca) (getEntry r cp)).getD k []) 0)
        (getEntry ((t.rows.map fun r =>
          stokesRow (getEntry r cn) (getEntry r ci) (getEntry r cd)
            (getEntry r ca) (getEntry r cp)).getD k []) 1)
        (getEntry ((t.rows.map fun r =>
          stokesRow (getEntry r cn) (getEntry r ci) (getEntry r cd)
            (getEntry r ca) (getEntry r cp)).getD k []) 2)
        (getEntry ((t.rows.map fun r =>
          stokesRow (getEntry r cn) (getEntry r ci) (getEntry r cd)
            (getEntry r ca) (getEntry r cp)).getD k []) 3)
        (getEntry ((t.rows.map fun r =>
          stokesRow (getEntry r cn) (getEntry r ci) (getEntry r cd)
            (getEntry r ca) (getEntry r cp)).getD k []) 4) :=
    getD_map_of_lt _ _ k hk' [] []
  have hrow2 : (t.rows.map fun r =>
      stokesRow (getEntry r cn) (getEntry r ci) (getEntry r cd)
        (getEntry r ca) (getEntry r cp)).getD k [] =
      stokesRow (getEntry (t.rows.getD k []) cn) (getEntry (t.rows.getD k []) ci)
        (getEntry (t.rows.getD k []) cd) (getEntry (t.rows.getD k []) ca)
        (getEntry (t.rows.getD k []) cp) :=
    getD_map_of_lt _ _ k hk [] []
  obtain ⟨hdopeq, haveq⟩ := roundtrip_row (getEntry (t.rows.getD k []) cn)
    (getEntry (t.rows.getD k []) ci) (getEntry (t.rows.getD k []) cd)
    (getEntry (t.rows.getD k []) ca) (getEntry (t.rows.getD k []) cp)
    hint hdop0 hav0 hav1
  refine ⟨⟨stokesCols,
      t.rows.map fun r =>
        stokesRow (getEntry r cn) (getEntry r ci) (getEntry r cd)
          (getEntry r ca) (getEntry r cp)⟩,
    ⟨propCols,
      (t.rows.map fun r =>
        stokesRow (getEntry r cn) (getEntry r ci) (getEntry r cd)
          (getEntry r ca) (getEntry r cp)).map fun r =>
        propRow (getEntry r 0) (getEntry r 1) (getEntry r 2) (getEntry r 3) (getEntry r 4)⟩,
    ?_, rfl, ?_, ?_⟩
  · simp [convert_to_stokes, hfc]
  · show |getEntry (((t.rows.map fun r =>
        stokesRow (getEntry r cn) (getEntry r ci) (getEntry r cd)
          (getEntry r ca) (getEntry r cp)).map fun r =>
        propRow (getEntry r 0) (getEntry r 1) (getEntry r 2) (getEntry r 3)
          (getEntry r 4)).getD k []) 1 - getEntry (t.rows.getD k []) cd| ≤ 1e-4
    rw [hrow1, hrow2, hdopeq]
    norm_num
  · show |getEntry (((t.rows.map fun r =>
        stokesRow (getEntry r cn) (getEntry r ci) (getEntry r cd)
          (getEntry r ca) (getEntry r cp)).map fun r =>
        propRow (getEntry r 0) (getEntry r 1) (getEntry r 2) (getEntry r 3)
          (getEntry r 4)).getD k []) 2 - getEntry (t.rows.getD k []) ca| ≤ 1e-4
    rw [hrow1, hrow2, haveq]
    norm_num

/-- Witness for C2 at the sample table (azimuth 30°, PER 10 dB, DOP 50%,
intensity 100%). -/
theorem roundtrip_recovers_dop_azimuth_witness :
    ∃ st pt : Table, convert_to_stokes T1 = some st ∧
      get_polarization_properties (some st) = some pt ∧
      |getEntry (pt.rows.getD 0 []) 1 - getEntry (T1.rows.getD 0 []) 2| ≤ 1e-4 ∧
      |getEntry (pt.rows.getD 0 []) 2 - getEntry (T1.rows.getD 0 []) 4| ≤ 1e-4 :=
  roundtrip_recovers_dop_azimuth T1 0 1 2 4 3 rfl rfl rfl rfl rfl 0
    (by simp [T1]) (by norm_num [T1, getEntry]) (by norm_num [T1, getEntry])
    (by norm_num [T1, getEntry]) (by norm_num [T1, getEntry])
    (by norm_num [T1, getEntry]) (by norm_num [T1, getEntry])

/-- Value of `np.arctan2` on the negative imaginary axis. -/
theorem arctan2_of_neg (y : ℝ) (hy : y < 0) : arctan2 y 0 = -(π / 2) := by
  have h1 : (⟨0, y⟩ : ℂ) = ((-y : ℝ) : ℂ) * (-Complex.I) := by
    simp only [Complex.ext_iff, Complex.mul_re, Complex.mul_im, Complex.neg_re,
      Complex.neg_im, Complex.I_re, Complex.I_im, Complex.ofReal_re, Complex.ofReal_im]
    constructor <;> ring
  rw [arctan2, h1, Complex.arg_real_mul _ (by linarith : 0 < -y), Complex.arg_neg_I]

/-- C2 (counterexample): at the input row
{No 1, Intensity 100%, DOP 50%, PER 10 dB, azimuth 135°} — which has
PER > 0, DOP in (0,100), and positive intensity — the recovered azimuth
is -45°, which is 180° away from the input azimuth, far beyond the 1e-4
tolerance, so the round-trip claim without an azimuth restriction is
false. -/
theorem roundtrip_azimuth_counterexample :
    ∃ st pt : Table, convert_to_stokes T2 = some st ∧
      get_polarization_properties (some st) = some pt ∧
      0 < getEntry (T2.rows.getD 0 []) 3 ∧
      0 < getEntry (T2.rows.getD 0 []) 2 ∧ getEntry (T2.rows.getD 0 []) 2 < 100 ∧
      0 < getEntry (T2.rows.getD 0 []) 1 ∧
      getEntry (pt.rows.getD 0 []) 2 = -45 ∧
      ¬ (|getEntry (pt.rows.getD 0 []) 2 - getEntry (T2.rows.getD 0 []) 4| ≤ 1e-4) := by
  have hang : 2 * deg2rad (135 : ℝ) = π + π / 2 := by rw [deg2rad]; ring
  have hcos : Real.cos (2 * deg2rad (135 : ℝ)) = 0 := by
    rw [hang, Real.cos_add]; simp
  have hsin : Real.sin (2 * deg2rad (135 : ℝ)) = -1 := by
    rw [hang, Real.sin_add]; simp
  have hchi : (2 : ℝ) *
      (0.5 * Real.arctan (2 / Real.sqrt ((10 : ℝ) ^ ((10 : ℝ) / 10) - 1))) =
      Real.arctan (2 / Real.sqrt ((10 : ℝ) ^ ((10 : ℝ) / 10) - 1)) := by ring
  have hS1 : getEntry (stokesRow 1 100 50 135 10) 2 = 0 := by
    show (100 : ℝ) / 100 * ((50 : ℝ) / 100) * Real.cos (2 * deg2rad 135) *
        Real.cos (2 * (0.5 * Real.arctan (2 / Real.sqrt ((10 : ℝ) ^ ((10 : ℝ) / 10) - 1)))) = 0
    rw [hcos]; ring
  have hS2 : getEntry (stokesRow 1 100 50 135 10) 3 =
      -(1 / 2 * Real.cos (Real.arctan (2 / Real.sqrt ((10 : ℝ) ^ ((10 : ℝ) / 10) - 1)))) := by
    show (100 : ℝ) / 100 * ((50 : ℝ) / 100) * Real.sin (2 * deg2rad 135) *
        Real.cos (2 * (0.5 * Real.arctan (2 / Real.sqrt ((10 : ℝ) ^ ((10 : ℝ) / 10) - 1)))) = _
    rw [hsin, hchi]; ring
  have hS2neg : getEntry (stokesRow 1 100 50 135 10) 3 < 0 := by
    rw [hS2]
    have := Real.cos_arctan_pos (2 / Real.sqrt ((10 : ℝ) ^ ((10 : ℝ) / 10) - 1))
    linarith
  have h45 : getEntry (propRow (getEntry (stokesRow 1 100 50 135 10) 0)
      (getEntry (stokesRow 1 100 50 135 10) 1) (getEntry (stokesRow 1 100 50 135 10) 2)
      (getEntry (stokesRow 1 100 50 135 10) 3) (getEntry (stokesRow 1 100 50 135 10) 4))
      2 = -45 := by
    show 0.5 * rad2deg (arctan2 (getEntry (stokesRow 1 100 50 135 10) 3)
        (getEntry (stokesRow 1 100 50 135 10) 2)) = -45
    rw [hS1, arctan2_of_neg _ hS2neg, rad2deg]
    field_simp
    ring
  refine ⟨⟨stokesCols, [stokesRow 1 100 50 135 10]⟩,
    ⟨propCols, [propRow (getEntry (stokesRow 1 100 50 135 10) 0)
      (getEntry (stokesRow 1 100 50 135 10) 1) (getEntry (stokesRow 1 100 50 135 10) 2)
      (getEntry (stokesRow 1 100 50 135 10) 3) (getEntry (stokesRow 1 100 50 135 10) 4)]⟩,
    rfl, rfl, by norm_num [T2, getEntry], by norm_num [T2, getEntry],
    by norm_num [T2, getEntry], by norm_num [T2, getEntry], h45, ?_⟩
  show ¬ (|getEntry (propRow (getEntry (stokesRow 1 100 50 135 10) 0)
      (getEntry (stokesRow 1 100 50 135 10) 1) (getEntry (stokesRow 1 100 50 135 10) 2)
      (getEntry (stokesRow 1 100 50 135 10) 3) (getEntry (stokesRow 1 100 50 135 10) 4))
      2 - getEntry (T2.rows.getD 0 []) 4| ≤ 1e-4)
  rw [h45]
  norm_num [T2, getEntry]

/-- C3 (counterexample): load file A (no data rows), convert, then load
file B (one row): the engine now holds the raw table of file B next to
the Stokes table computed from file A, which is neither empty nor the
conversion of file B — loading does not atomically replace the result
set. -/
theorem load_not_atomic_counterexample :
    (load_data (convertStep (load_data Engine.mk0 (some ⟨cols5, []⟩)).1).1
        (some T1)).1.data = some T1 ∧
    (load_data (convertStep (load_data Engine.mk0 (some ⟨cols5, []⟩)).1).1
        (some T1)).1.stokes = convert_to_stokes ⟨cols5, []⟩ ∧
    (load_data (convertStep (load_data Engine.mk0 (some ⟨cols5, []⟩)).1).1
        (some T1)).1.stokes ≠ none ∧
    (load_data (convertStep (load_data Engine.mk0 (some ⟨cols5, []⟩)).1).1
        (some T1)).1.stokes ≠ convert_to_stokes T1 := by
  refine ⟨rfl, rfl, ?_, ?_⟩
  · rw [show (load_data (convertStep (load_data Engine.mk0 (some ⟨cols5, []⟩)).1).1
        (some T1)).1.stokes = some ⟨stokesCols, []⟩ from rfl]
    simp
  intro h
  rw [show convert_to_stokes T1 = some ⟨stokesCols, [stokesRow 1 100 50 30 10]⟩ from rfl] at h
  rw [show (load_data (convertStep (load_data Engine.mk0 (some ⟨cols5, []⟩)).1).1
      (some T1)).1.stokes = some ⟨stokesCols, []⟩ from rfl] at h
  simp only [Option.some.injEq, Table.mk.injEq] at h
  exact absurd h.2 (by simp)

/-- C3 (amended): a successful `load_data` replaces only the raw data
table and reports success; the Stokes results table is left exactly as
it was, until the next `convert_to_stokes` call replaces it. -/
theorem load_replaces_only_raw_data (e : Engine) (t : Table) :
    (load_data e (some t)).1.data = some t ∧
    (load_data e (some t)).1.stokes = e.stokes ∧
    (load_data e (some t)).2 = true :=
  ⟨rfl, rfl, rfl⟩

/-- C4 (counterexample): on a parsed table missing the required
`Intensity [%]` column, `load_data` reports success (there is no
ingestion-time column check); the failure only appears when
`convert_to_stokes` returns no table. -/
theorem missing_column_load_succeeds_counterexample :
    (load_data Engine.mk0 (some T3)).2 = true ∧ convert_to_stokes T3 = none :=
  ⟨rfl, rfl⟩

/-- C4 (amended): a missing required column (`No`, `Intensity [%]`,
`DOP [%]`, `PER [dB]`, or the azimuth column by name or fifth position)
does not make `load_data` fail — load still reports success — and
instead makes the subsequent `convert_to_stokes` return no table. -/
theorem missing_column_fails_convert (t : Table) (e : Engine)
    (h : colIdx t "No" = none ∨ colIdx t "Intensity [%]" = none ∨
         colIdx t "DOP [%]" = none ∨ azimuthIdx t = none ∨
         colIdx t "PER [dB]" = none) :
    (load_data e (some t)).2 = true ∧ convert_to_stokes t = none := by
  refine ⟨rfl, ?_⟩
  have hfc : findCols t = none := by
    rcases h with h | h | h | h | h
    · simp [findCols, h]
    · cases hn : colIdx t "No" <;> simp [findCols, hn, h]
    · cases hn : colIdx t "No" <;> cases hi : colIdx t "Intensity [%]" <;>
        simp [findCols, hn, hi, h]
    · cases hn : colIdx t "No" <;> cases hi : colIdx t "Intensity [%]" <;>
        cases hd : colIdx t "DOP [%]" <;> simp [findCols, hn, hi, hd, h]
    · cases hn : colIdx t "No" <;> cases hi : colIdx t "Intensity [%]" <;>
        cases hd : colIdx t "DOP [%]" <;> cases ha : azimuthIdx t <;>
        simp [findCols, hn, hi, hd, ha, h]
  simp [convert_to_stokes, hfc]

/-- Witness for C4 (amended) at a table missing the `No` column. -/
theorem missing_column_fails_convert_witness :
    (load_data Engine.mk0 (some T4)).2 = true ∧ convert_to_stokes T4 = none :=
  missing_column_fails_convert T4 Engine.mk0 (Or.inl rfl)

/-- C9: on a parsed table with no column literally named `φ [°]` but at
least five columns (and the other required columns present), load
reports success and the forward transform uses the fifth column
(zero-based index 4) as the azimuth. -/
theorem azimuth_positional_fallback (t : Table) (e : Engine)
    (hphi : colIdx t "φ [°]" = none) (h5 : 5 ≤ t.cols.length)
    (cn ci cd cp : Nat)
    (hn : colIdx t "No" = some cn) (hi : colIdx t "Intensity [%]" = some ci)
    (hd : colIdx t "DOP [%]" = some cd) (hp : colIdx t "PER [dB]" = some cp) :
    (load_data e (some t)).2 = true ∧
    azimuthIdx t = some 4 ∧
    convert_to_stokes t = some ⟨stokesCols,
      t.rows.map fun r =>
        stokesRow (getEntry r cn) (getEntry r ci) (getEntry r cd)
          (getEntry r 4) (getEntry r cp)⟩ := by
  have ha : azimuthIdx t = some 4 := by simp [azimuthIdx, hphi, h5]
  exact ⟨rfl, ha, by
    simp [convert_to_stokes, findCols_eq t cn ci cd 4 cp hn hi hd ha hp]⟩

/-- Witness for C9 at a concrete five-column table without the `φ [°]`
header. -/
theorem azimuth_positional_fallback_witness :
    (load_data Engine.mk0 (some T5)).2 = true ∧
    azimuthIdx T5 = some 4 ∧
    convert_to_stokes T5 = some ⟨stokesCols,
      T5.rows.map fun r =>
        stokesRow (getEntry r 0) (getEntry r 1) (getEntry r 2)
          (getEntry r 4) (getEntry r 3)⟩ :=
  azimuth_positional_fallback T5 Engine.mk0 rfl (by decide) 0 1 2 3 rfl rfl rfl rfl

/-- C10: with Stokes results present but a failing property-derivation
stage, `save_results` with `include_properties` still writes the Stokes
table alone and returns `True` — the property failure is silent at the
save interface; with no Stokes results at all it writes nothing and
returns `False` whatever the flag. -/
theorem save_skips_failed_properties (e : Engine) (st : Table)
    (hst : e.stokes = some st)
    (hprops : get_polarization_properties (some st) = none) :
    save_results e true = (some st.toM, true) ∧
    ∀ e2 : Engine, e2.stokes = none → ∀ b : Bool, save_results e2 b = (none, false) := by
  constructor
  · simp [save_results, hst, hprops]
  · intro e2 h2 b
    simp [save_results, h2]

/-- Witness for C10: a Stokes table lacking the `S0` column makes the
property stage fail, and save still succeeds with the bare table. -/
theorem save_skips_failed_properties_witness :
    save_results ⟨none, some ⟨["No"], [[1]]⟩⟩ true =
      (some (Table.toM ⟨["No"], [[1]]⟩), true) ∧
    ∀ e2 : Engine, e2.stokes = none → ∀ b : Bool, save_results e2 b = (none, false) :=
  save_skips_failed_properties ⟨none, some ⟨["No"], [[1]]⟩⟩ ⟨["No"], [[1]]⟩ rfl rfl

/-- First-success semantics of the candidate encoding loop. -/
theorem tryEncodings_first (f : RawFile) (l : List String) (i : Nat) (t : Table)
    (hi : i < l.length)
    (hprev : ∀ j, j < i → f.tryParse (l.getD j "") = none)
    (hcur : f.tryParse (l.getD i "") = some t) :
    tryEncodings f l = some (l.getD i "", t) := by
  induction l generalizing i with
  | nil => simp at hi
  | cons e rest ih =>
      cases i with
      | zero =>
          simp only [List.getD_cons_zero] at hcur ⊢
          simp [tryEncodings, hcur]
      | succ n =>
          have h0 : f.tryParse e = none := by
            simpa using hprev 0 (Nat.succ_pos n)
          simp only [List.getD_cons_succ] at hcur ⊢
          rw [tryEncodings, h0]
          exact ih n (by simpa using hi)
            (fun j hj => by simpa using hprev (j + 1) (by omega)) hcur

/-- The candidate loop fails when every candidate fails. -/
theorem tryEncodings_none (f : RawFile) (l : List String)
    (h : ∀ en, en ∈ l → f.tryParse en = none) :
    tryEncodings f l = none := by
  induction l with
  | nil => rfl
  | cons e rest ih =>
      rw [tryEncodings, h e (by simp)]
      exact ih fun en hen => h en (by simp [hen])

/-- C8: `load_data` attempts the candidate encodings in the fixed order
utf-8, gbk, utf-16le, gb2312, latin-1, cp1252, utf-8-sig and returns
with the first candidate that parses; only when every candidate fails
does it consult statistical detection, and the detected encoding is
retried only when its confidence exceeds 0.7. In particular a file that
fails utf-8 decoding but parses as gbk is resolved by the gbk candidate,
before detection is ever reached. -/
theorem encoding_resolution_order (f : RawFile) :
    (∀ i t, i < encodings.length →
      (∀ j, j < i → f.tryParse (encodings.getD j "") = none) →
      f.tryParse (encodings.getD i "") = some t →
      resolveEncoding f = some (encodings.getD i "", t)) ∧
    (∀ enc : String, ∀ conf : ℚ,
      (∀ en, en ∈ encodings → f.tryParse en = none) →
      f.detect = some (enc, conf) →
      ((conf > 0.7 →
          resolveEncoding f = (f.tryParse enc).map fun tb => (enc, tb)) ∧
       (¬ conf > 0.7 → resolveEncoding f = none))) ∧
    ((∀ en, en ∈ encodings → f.tryParse en = none) → f.detect = none →
      resolveEncoding f = none) ∧
    (∀ t, f.tryParse "utf-8" = none → f.tryParse "gbk" = some t →
      resolveEncoding f = some ("gbk", t)) := by
  refine ⟨?_, ?_, ?_, ?_⟩
  · intro i t hi hprev hcur
    rw [resolveEncoding, tryEncodings_first f encodings i t hi hprev hcur]
  · intro enc conf hall hdet
    have hnone : tryEncodings f encodings = none := tryEncodings_none f encodings hall
    constructor
    · intro hconf
      cases hpe : f.tryParse enc <;>
        simp [resolveEncoding, hnone, hdet, hconf, hpe]
    · intro hconf
      simp [resolveEncoding, hnone, hdet, hconf]
  · intro hall hdet
    rw [resolveEncoding, tryEncodings_none f encodings hall, hdet]
  · intro t h8 hgbk
    have : tryEncodings f encodings = some ("gbk", t) := by
      have := tryEncodings_first f encodings 1 t (by simp [encodings])
        (fun j hj => by
          interval_cases j
          simpa [encodings] using h8)
        (by simpa [encodings] using hgbk)
      simpa [encodings] using this
    rw [resolveEncoding, this]

/-- Witness for C8: the gbk-only file resolves through the gbk
candidate. -/
theorem encoding_resolution_order_witness :
    resolveEncoding gbkFile = some ("gbk", ⟨cols5, []⟩) :=
  (encoding_resolution_order gbkFile).2.2.2 ⟨cols5, []⟩ rfl rfl

/-! Equation lemmas for the float-value operations. -/

theorem subF_fin_fin (x y : ℝ) : subF (.fin x) (.fin y) = .fin (x - y) := by
  simp [subF, addF, negF, sub_eq_add_neg]

theorem mulF_fin_fin (x y : ℝ) : mulF (.fin x) (.fin y) = .fin (x * y) := rfl

theorem addF_fin_fin (x y : ℝ) : addF (.fin x) (.fin y) = .fin (x + y) := rfl

theorem mulF_nan_left (v : NumV) : mulF .nan v = .nan := by cases v <;> rfl

theorem mulF_nan_right (v : NumV) : mulF v .nan = .nan := by cases v <;> rfl

theorem addF_nan_left (v : NumV) : addF .nan v = .nan := by cases v <;> rfl

theorem addF_nan_right (v : NumV) : addF v .nan = .nan := by cases v <;> rfl

theorem divF_nan_left (v : NumV) : divF .nan v = .nan := by cases v <;> rfl

theorem divF_nan_right (v : NumV) : divF v .nan = .nan := by cases v <;> rfl

theorem divF_fin_fin (x y : ℝ) (h : y ≠ 0) :
    divF (.fin x) (.fin y) = .fin (x / y) := by
  simp [divF, h]

theorem divF_fin_zero_pos (x : ℝ) (h : 0 < x) :
    divF (.fin x) (.fin 0) = .pinf := by
  simp [divF, h]

theorem divF_fin_zero_zero : divF (.fin 0) (.fin 0) = .nan := by
  simp [divF]

theorem sqrtF_fin_neg (x : ℝ) (h : x < 0) : sqrtF (.fin x) = .nan := by
  simp [sqrtF, h]

theorem sqrtF_fin_nonneg (x : ℝ) (h : 0 ≤ x) :
    sqrtF (.fin x) = .fin (Real.sqrt x) := by
  simp [sqrtF, not_lt.mpr h]

theorem sqrtF_nan : sqrtF .nan = .nan := rfl

theorem cosF_fin (x : ℝ) : cosF (.fin x) = .fin (Real.cos x) := rfl

theorem cosF_nan : cosF .nan = .nan := rfl

theorem sinF_fin (x : ℝ) : sinF (.fin x) = .fin (Real.sin x) := rfl

theorem sinF_nan : sinF .nan = .nan := rfl

theorem arctanF_fin (x : ℝ) : arctanF (.fin x) = .fin (Real.arctan x) := rfl

theorem arctanF_nan : arctanF .nan = .nan := rfl

theorem arctanF_pinf : arctanF .pinf = .fin (π / 2) := rfl

theorem tenPowF_fin (x : ℝ) : tenPowF (.fin x) = .fin ((10 : ℝ) ^ x) := rfl

theorem isFinite_fin (x : ℝ) : (NumV.fin x).isFinite := trivial

theorem not_isFinite_nan : ¬ (NumV.nan).isFinite := fun h => h

/-- Float semantics of one converted row when the radicand
`PERlin - 1` is negative: numpy's sqrt yields NaN, which propagates
through chi into S1, S2, S3 and DOP_calculated, while No, S0 and the
copied original columns stay finite. -/
theorem stokesRowF_neg_radicand (noV iv dv av pv : ℝ)
    (h : (10 : ℝ) ^ (pv / 10) - 1 < 0) :
    stokesRowF noV iv dv av pv =
      [.fin noV, .fin (iv / 100), .nan, .nan, .nan, .nan,
       .fin av, .fin pv, .fin iv] := by
  simp only [stokesRowF, tenPowF_fin, subF_fin_fin, sqrtF_fin_neg _ h,
    divF_nan_right, arctanF_nan, mulF_nan_right, mulF_nan_left, cosF_nan,
    sinF_nan, mulF_fin_fin, addF_nan_left, addF_nan_right, sqrtF_nan,
    divF_nan_left, cosF_fin, sinF_fin]

/-- Float semantics of one converted row when the intensity is zero
(S0 = 0) and the radicand is non-negative: S1, S2, S3 are finite zeros,
and DOP_calculated is NaN from the 0/0 division. -/
theorem stokesRowF_zero_S0 (noV iv dv av pv : ℝ)
    (hge : 0 ≤ (10 : ℝ) ^ (pv / 10) - 1) (hiv : iv = 0) :
    stokesRowF noV iv dv av pv =
      [.fin noV, .fin 0, .fin 0, .fin 0, .fin 0, .nan,
       .fin av, .fin pv, .fin 0] := by
  subst hiv
  rcases eq_or_lt_of_le hge with heq | hlt
  · have hs : sqrtF (.fin ((10 : ℝ) ^ (pv / 10) - 1)) = .fin 0 := by
      rw [← heq, sqrtF_fin_nonneg _ le_rfl, Real.sqrt_zero]
    simp only [stokesRowF, tenPowF_fin, subF_fin_fin, hs,
      divF_fin_zero_pos _ (by norm_num : (0 : ℝ) < 2), arctanF_pinf,
      mulF_fin_fin, cosF_fin, sinF_fin, addF_fin_fin]
    norm_num [divF_fin_zero_zero]
    rw [sqrtF_fin_nonneg _ le_rfl, Real.sqrt_zero, divF_fin_zero_zero]
  · have hs : sqrtF (.fin ((10 : ℝ) ^ (pv / 10) - 1)) =
        .fin (Real.sqrt ((10 : ℝ) ^ (pv / 10) - 1)) :=
      sqrtF_fin_nonneg _ hlt.le
    have hne : Real.sqrt ((10 : ℝ) ^ (pv / 10) - 1) ≠ 0 :=
      (Real.sqrt_pos.mpr hlt).ne'
    simp only [stokesRowF, tenPowF_fin, subF_fin_fin, hs,
      divF_fin_fin _ _ hne, arctanF_fin, mulF_fin_fin, cosF_fin, sinF_fin,
      addF_fin_fin]
    norm_num [divF_fin_zero_zero]
    rw [sqrtF_fin_nonneg _ le_rfl, Real.sqrt_zero, divF_fin_zero_zero]

/-- Float semantics of one converted row in the regular case
(`PERlin - 1 > 0` and nonzero intensity): every operation stays finite
and the row agrees with the exact real-arithmetic transform. -/
theorem stokesRowF_regular (noV iv dv av pv : ℝ)
    (hgt : 0 < (10 : ℝ) ^ (pv / 10) - 1) (hiv : iv ≠ 0) :
    stokesRowF noV iv dv av pv = (stokesRow noV iv dv av pv).map NumV.fin := by
  have hne : Real.sqrt ((10 : ℝ) ^ (pv / 10) - 1) ≠ 0 := (Real.sqrt_pos.mpr hgt).ne'
  have hIne : iv / 100 ≠ 0 := div_ne_zero hiv (by norm_num)
  have hsum : ∀ a b c : ℝ, a * a + b * b + c * c = a ^ 2 + b ^ 2 + c ^ 2 := by
    intros; ring
  simp only [stokesRowF, stokesRow, tenPowF_fin, subF_fin_fin,
    sqrtF_fin_nonneg _ hgt.le, divF_fin_fin _ _ hne, arctanF_fin,
    mulF_fin_fin, cosF_fin, sinF_fin, addF_fin_fin, List.map]
  rw [hsum, sqrtF_fin_nonneg _ (by positivity), divF_fin_fin _ _ hIne]

/-- C5: rows that are numerically degenerate do not abort the
conversion under float semantics: `convertF` returns a full table of
the same length; a row with `PERlin - 1 < 0` carries non-finite values
in S1, S2, S3 and DOP_calculated (its other columns stay finite); a row
with S0 = 0 carries a non-finite DOP_calculated while S0..S3 stay
finite; and every non-degenerate row keeps its ordinary (exact
real-arithmetic) values. -/
theorem degenerate_rows_soft_fail (t : Table) (cn ci cd ca cp : Nat)
    (hn : colIdx t "No" = some cn) (hi : colIdx t "Intensity [%]" = some ci)
    (hd : colIdx t "DOP [%]" = some cd) (ha : azimuthIdx t = some ca)
    (hp : colIdx t "PER [dB]" = some cp) :
    ∃ res : List (List NumV), convertF t = some res ∧
      res.length = t.rows.length ∧
      ∀ k, k < t.rows.length →
        (((10 : ℝ) ^ (getEntry (t.rows.getD k []) cp / 10) - 1 < 0 →
            ¬ ((res.getD k []).getD 2 .nan).isFinite ∧
            ¬ ((res.getD k []).getD 3 .nan).isFinite ∧
            ¬ ((res.getD k []).getD 4 .nan).isFinite ∧
            ¬ ((res.getD k []).getD 5 .nan).isFinite ∧
            ((res.getD k []).getD 0 .nan).isFinite ∧
            ((res.getD k []).getD 1 .nan).isFinite ∧
            ((res.getD k []).getD 6 .nan).isFinite ∧
            ((res.getD k []).getD 7 .nan).isFinite ∧
            ((res.getD k []).getD 8 .nan).isFinite) ∧
         (0 ≤ (10 : ℝ) ^ (getEntry (t.rows.getD k []) cp / 10) - 1 →
          getEntry (t.rows.getD k []) ci = 0 →
            ¬ ((res.getD k []).getD 5 .nan).isFinite ∧
            ((res.getD k []).getD 1 .nan).isFinite ∧
            ((res.getD k []).getD 2 .nan).isFinite ∧
            ((res.getD k []).getD 3 .nan).isFinite ∧
            ((res.getD k []).getD 4 .nan).isFinite) ∧
         (0 < (10 : ℝ) ^ (getEntry (t.rows.getD k []) cp / 10) - 1 →
          getEntry (t.rows.getD k []) ci ≠ 0 →
            res.getD k [] =
              (stokesRow (getEntry (t.rows.getD k []) cn)
                (getEntry (t.rows.getD k []) ci) (getEntry (t.rows.getD k []) cd)
                (getEntry (t.rows.getD k []) ca)
                (getEntry (t.rows.getD k []) cp)).map NumV.fin)) := by
  have hfc : findCols t = some ⟨cn, ci, cd, ca, cp⟩ := findCols_eq t cn ci cd ca cp hn hi hd ha hp
  refine ⟨t.rows.map fun r =>
      stokesRowF (getEntry r cn) (getEntry r ci) (getEntry r cd)
        (getEntry r ca) (getEntry r cp), ?_, by simp, ?_⟩
  · simp [convertF, hfc]
  intro k hk
  have hrow : (t.rows.map fun r =>
      stokesRowF (getEntry r cn) (getEntry r ci) (getEntry r cd)
        (getEntry r ca) (getEntry r cp)).getD k [] =
      stokesRowF (getEntry (t.rows.getD k []) cn) (getEntry (t.rows.getD k []) ci)
        (getEntry (t.rows.getD k []) cd) (getEntry (t.rows.getD k []) ca)
        (getEntry (t.rows.getD k []) cp) :=
    getD_map_of_lt _ _ k hk [] []
  refine ⟨?_, ?_, ?_⟩
  · intro hneg
    rw [hrow, stokesRowF_neg_radicand _ _ _ _ _ hneg]
    exact ⟨fun h => h, fun h => h, fun h => h, fun h => h,
      trivial, trivial, trivial, trivial, trivial⟩
  · intro hge h0
    rw [hrow, stokesRowF_zero_S0 _ _ _ _ _ hge h0]
    exact ⟨fun h => h, trivial, trivial, trivial, trivial⟩
  · intro hgt hne0
    rw [hrow]
    exact stokesRowF_regular _ _ _ _ _ hgt hne0

/-- Witness for C5 at the degenerate sample table. -/
theorem degenerate_rows_soft_fail_witness :
    ∃ res : List (List NumV), convertF TDeg = some res ∧
      res.length = TDeg.rows.length := by
  obtain ⟨res, h1, h2, -⟩ :=
    degenerate_rows_soft_fail TDeg 0 1 2 4 3 rfl rfl rfl rfl rfl
  exact ⟨res, h1, h2⟩
